import Mathlib

/-!
Verification of the SRMS student record management system (src/srms.c).

The C program is embedded shallowly:
* `float` arithmetic is modelled by exact rational arithmetic (`ℚ`);
* C strings are modelled by `List Char`;
* files are modelled by their contents, passed explicitly;
* fallible operations return `Option`.
-/

namespace SRMS

/-- The `Student` struct of srms.c (`SUBJECTS = 3`); the three `marks`
array cells are the fields `m1`, `m2`, `m3`. -/
structure Student where
  roll : Int
  name : List Char
  m1 : ℚ
  m2 : ℚ
  m3 : ℚ
  total : ℚ
  percentage : ℚ
  grade : String
  deriving DecidableEq, Repr

/-- `calculate_student` (srms.c:223-233): total is accumulated over the
marks array starting from 0, percentage is `(total / (100*3)) * 100`, and
the grade is the first-match if-chain. -/
def calculate_student (s : Student) : Student :=
  let t : ℚ := 0 + s.m1 + s.m2 + s.m3
  let p : ℚ := t / (100 * 3) * 100
  let g : String :=
    if p ≥ 90 then "A+"
    else if p ≥ 80 then "A"
    else if p ≥ 70 then "B"
    else if p ≥ 60 then "C"
    else if p ≥ 50 then "D"
    else "F"
  { s with total := t, percentage := p, grade := g }

/-- Modelled from the spec: the grade-threshold table of the spec
("≥90 → A+; ≥80 → A; ≥70 → B; ≥60 → C; ≥50 → D; else F", evaluated
highest-first, first match wins), used to compare against the code. -/
def specGrade (p : ℚ) : String :=
  if p ≥ 90 then "A+"
  else if p ≥ 80 then "A"
  else if p ≥ 70 then "B"
  else if p ≥ 60 then "C"
  else if p ≥ 50 then "D"
  else "F"

/-- C1: for marks each in [0,100], `calculate_student` sets `total` to the
sum of the marks, `percentage` to `total / 300 * 100`, and `grade` by the
first-match-wins thresholds of the spec; at the boundaries,
percentage 90.00 gives "A+", 89.99 gives "A", 50.00 gives "D" and
49.99 gives "F". -/
theorem calculate_student_correct (s : Student)
    (h1 : 0 ≤ s.m1 ∧ s.m1 ≤ 100) (h2 : 0 ≤ s.m2 ∧ s.m2 ≤ 100)
    (h3 : 0 ≤ s.m3 ∧ s.m3 ≤ 100) :
    (calculate_student s).total = s.m1 + s.m2 + s.m3 ∧
    (calculate_student s).percentage = (calculate_student s).total / 300 * 100 ∧
    (calculate_student s).grade = specGrade ((calculate_student s).percentage) ∧
    (∀ t : Student, (calculate_student t).percentage = 90 →
      (calculate_student t).grade = "A+") ∧
    (∀ t : Student, (calculate_student t).percentage = 8999 / 100 →
      (calculate_student t).grade = "A") ∧
    (∀ t : Student, (calculate_student t).percentage = 50 →
      (calculate_student t).grade = "D") ∧
    (∀ t : Student, (calculate_student t).percentage = 4999 / 100 →
      (calculate_student t).grade = "F") := by
  refine ⟨by simp [calculate_student], by simp [calculate_student]; ring, ?_, ?_, ?_, ?_, ?_⟩
  · rfl
  all_goals
    intro t hp
    simp only [calculate_student] at hp ⊢
    rw [hp]
    norm_num

/-- Witness for C1 at the concrete marks (90, 85, 95). -/
theorem calculate_student_correct_witness :
    ((0 : ℚ) ≤ 90 ∧ (90 : ℚ) ≤ 100) ∧ ((0 : ℚ) ≤ 85 ∧ (85 : ℚ) ≤ 100) ∧
    ((0 : ℚ) ≤ 95 ∧ (95 : ℚ) ≤ 100) ∧
    ((calculate_student ⟨1, ['A'], 90, 85, 95, 0, 0, ""⟩).total = 90 + 85 + 95 ∧
     (calculate_student ⟨1, ['A'], 90, 85, 95, 0, 0, ""⟩).percentage =
       (calculate_student ⟨1, ['A'], 90, 85, 95, 0, 0, ""⟩).total / 300 * 100 ∧
     (calculate_student ⟨1, ['A'], 90, 85, 95, 0, 0, ""⟩).grade =
       specGrade ((calculate_student ⟨1, ['A'], 90, 85, 95, 0, 0, ""⟩).percentage) ∧
     (∀ t : Student, (calculate_student t).percentage = 90 →
       (calculate_student t).grade = "A+") ∧
     (∀ t : Student, (calculate_student t).percentage = 8999 / 100 →
       (calculate_student t).grade = "A") ∧
     (∀ t : Student, (calculate_student t).percentage = 50 →
       (calculate_student t).grade = "D") ∧
     (∀ t : Student, (calculate_student t).percentage = 4999 / 100 →
       (calculate_student t).grade = "F")) :=
  ⟨by norm_num, by norm_num, by norm_num,
   calculate_student_correct ⟨1, ['A'], 90, 85, 95, 0, 0, ""⟩
     (by norm_num) (by norm_num) (by norm_num)⟩

/-- `xor_file` (srms.c:206-220): the file is processed in 4096-byte chunks,
each byte is XORed with the key and written back at the offset it was read
from, so the whole file content is mapped bytewise. Bytes are `unsigned
char`, modelled as naturals reduced mod 256. -/
def xor_file (key : Nat) (content : List Nat) : List Nat :=
  content.map (fun b => (b ^^^ key % 256) % 256)

/-- C8: applying `xor_file` with the same single-byte key twice returns the
file to its original byte content. -/
theorem xor_file_involution (key : Nat) (content : List Nat)
    (hbytes : ∀ b ∈ content, b < 256) :
    xor_file key (xor_file key content) = content := by
  unfold xor_file
  rw [List.map_map]
  have h : ∀ b ∈ content,
      ((fun b => (b ^^^ key % 256) % 256) ∘ fun b => (b ^^^ key % 256) % 256) b = id b := by
    intro b hb
    have hk : key % 256 < 256 := Nat.mod_lt _ (by norm_num)
    have hb' := hbytes b hb
    have hx : b ^^^ key % 256 < 256 := by
      have h256 : (256 : Nat) = 2 ^ 8 := by norm_num
      rw [h256] at hk hb' ⊢
      exact Nat.xor_lt_two_pow hb' hk
    simp only [Function.comp, id]
    rw [Nat.mod_eq_of_lt hx, Nat.xor_cancel_right, Nat.mod_eq_of_lt hb']
  rw [List.map_congr_left h, List.map_id]

/-- Witness for C8 on the byte string "Hello" with key 42. -/
theorem xor_file_involution_witness :
    (∀ b ∈ [72, 101, 108, 108, 111], b < 256) ∧
    xor_file 42 (xor_file 42 [72, 101, 108, 108, 111]) = [72, 101, 108, 108, 111] :=
  ⟨by decide, xor_file_involution 42 [72, 101, 108, 108, 111] (by decide)⟩

/-! ## Credential store (srms.c:327-393, 879-890)

The credential file holds whitespace-delimited `username password ROLE`
rows, read back by `fscanf("%127s %127s %63s")`; it is modelled as the
list of its rows. -/

/-- One credential row. -/
structure Cred where
  user : List Char
  pass : List Char
  role : List Char
  deriving DecidableEq, Repr

/-- `check_credentials` (srms.c:328-341): scan the rows in order; the
first row whose username and password both match yields its role
(truncated by `strncpy` to `MAX_ROLE - 1 = 15` characters). -/
def check_credentials (username password : List Char) : List Cred → Option (List Char)
  | [] => none
  | c :: rest =>
    if c.user = username ∧ c.pass = password then some (c.role.take 15)
    else check_credentials username password rest

/-- `add_credential` (srms.c:343-349): open for append and write one row;
no duplicate check of any kind. -/
def add_credential (user pass role : List Char) (f : List Cred) : List Cred :=
  f ++ [⟨user, pass, role⟩]

/-- The row-rebuilding loop of `reset_password` (srms.c:358-365): every
row whose username matches gets the new password; the flag records
whether any row matched. -/
def reset_loop (user newpass : List Char) : List Cred → List Cred × Bool
  | [] => ([], false)
  | c :: rest =>
    let r := reset_loop user newpass rest
    if c.user = user then (⟨c.user, newpass, c.role⟩ :: r.1, true)
    else (c :: r.1, r.2)

/-- `reset_password` (srms.c:351-373): if no row matched, return 0 without
rewriting the file (modelled as `none`); otherwise rewrite the whole file
from the rebuilt rows. -/
def reset_password (user newpass : List Char) (f : List Cred) : Option (List Cred) :=
  let r := reset_loop user newpass f
  if r.2 then some r.1 else none

/-- The row-dropping loop of `remove_credential` (srms.c:382-385): rows
whose username matches are skipped (`continue`), all others are kept. -/
def remove_loop (user : List Char) : List Cred → List Cred × Bool
  | [] => ([], false)
  | c :: rest =>
    let r := remove_loop user rest
    if c.user = user then (r.1, true) else (c :: r.1, r.2)

/-- `remove_credential` (srms.c:375-393): if no row matched, return 0
without rewriting the file (`none`); otherwise rewrite from the kept
rows. -/
def remove_credential (user : List Char) (f : List Cred) : Option (List Cred) :=
  let r := remove_loop user f
  if r.2 then some r.1 else none

/-- `ensure_default_credentials` (srms.c:879-890): the five bootstrap
rows. -/
def ensure_default_credentials : List Cred :=
  [⟨"admin".toList, "admin".toList, "ADMIN".toList⟩,
   ⟨"staff".toList, "staff".toList, "STAFF".toList⟩,
   ⟨"guest".toList, "guest".toList, "GUEST".toList⟩,
   ⟨"principal".toList, "principal".toList, "PRINCIPAL".toList⟩,
   ⟨"student".toList, "student".toList, "STUDENT".toList⟩]

/-- C9: `reset_password` rewrites exactly the matching rows with the new
password, keeps every other row unchanged in its original position, and
returns success iff a row with the username exists; on not-found the file
is left entirely unchanged (no rewrite happens, modelled by `none`). -/
lemma reset_loop_fst (user newpass : List Char) (f : List Cred) :
    (reset_loop user newpass f).1 =
      f.map (fun c => if c.user = user then ⟨c.user, newpass, c.role⟩ else c) := by
  induction f with
  | nil => rfl
  | cons c rest ih =>
    by_cases hc : c.user = user <;> simp [reset_loop, hc, ih]

lemma reset_loop_snd (user newpass : List Char) (f : List Cred) :
    (reset_loop user newpass f).2 = f.any (fun c => c.user = user) := by
  induction f with
  | nil => rfl
  | cons c rest ih =>
    by_cases hc : c.user = user <;> simp [reset_loop, hc, ih]

lemma remove_loop_fst (user : List Char) (f : List Cred) :
    (remove_loop user f).1 = f.filter (fun c => !decide (c.user = user)) := by
  induction f with
  | nil => rfl
  | cons c rest ih =>
    by_cases hc : c.user = user <;> simp [remove_loop, hc, ih, List.filter]

lemma remove_loop_snd (user : List Char) (f : List Cred) :
    (remove_loop user f).2 = f.any (fun c => c.user = user) := by
  induction f with
  | nil => rfl
  | cons c rest ih =>
    by_cases hc : c.user = user <;> simp [remove_loop, hc, ih]

/-- C9: `reset_password` rewrites exactly the matching rows with the new
password, keeps every other row unchanged in its original position (the
result is a positionwise map touching only matching rows), and returns
success iff a row with the username exists; on not-found the file is left
entirely unchanged (no rewrite happens, modelled by `none`). -/
theorem reset_password_correct (user newpass : List Char) (f : List Cred) :
    reset_password user newpass f =
      if f.any (fun c => c.user = user)
      then some (f.map fun c => if c.user = user then ⟨c.user, newpass, c.role⟩ else c)
      else none := by
  unfold reset_password
  dsimp only
  rw [reset_loop_fst, reset_loop_snd]

/-- C10: `remove_credential` deletes every row whose username matches (not
only the first), keeps the remaining rows in their relative order (the
result is a filter of the original list), returns success iff at least one
row matched, and on no match performs no rewrite (`none`). -/
theorem remove_credential_correct (user : List Char) (f : List Cred) :
    remove_credential user f =
      if f.any (fun c => c.user = user)
      then some (f.filter (fun c => !decide (c.user = user)))
      else none := by
  unfold remove_credential
  dsimp only
  rw [remove_loop_fst, remove_loop_snd]

/-! ## Credential-store operation sequences (C4) -/

/-- One credential-store operation as reachable from
`feature_manage_credentials` (srms.c:675-698) and `login_system`. -/
inductive CredOp where
  | auth (user pass : List Char)
  | add (user pass role : List Char)
  | reset (user newpass : List Char)
  | remove (user : List Char)

/-- The effect of one operation on the credential file.  `authenticate`
only reads; `reset_password` and `remove_credential` leave the file
unchanged when they return not-found. -/
def apply_cred_op (f : List Cred) : CredOp → List Cred
  | CredOp.auth _ _ => f
  | CredOp.add u p r => add_credential u p r f
  | CredOp.reset u np => (reset_password u np f).getD f
  | CredOp.remove u => (remove_credential u f).getD f

/-- A sequence of credential-store operations, applied in order. -/
def apply_cred_ops (f : List Cred) (ops : List CredOp) : List Cred :=
  ops.foldl apply_cred_op f

/-- A sequence is add-safe when every `add` in it is invoked with a
username that is not in the file at that moment. -/
def safe_adds (f : List Cred) : List CredOp → Bool
  | [] => true
  | op :: rest =>
    (match op with
     | CredOp.add u _ _ => !decide (u ∈ f.map Cred.user)
     | _ => true) && safe_adds (apply_cred_op f op) rest

lemma add_credential_users_nodup (u p r : List Char) (f : List Cred)
    (hf : (f.map Cred.user).Nodup) (hu : u ∉ f.map Cred.user) :
    ((add_credential u p r f).map Cred.user).Nodup := by
  simp only [add_credential, List.map_append, List.map_cons, List.map_nil,
    List.nodup_append]
  exact ⟨hf, List.nodup_singleton u, by
    intro a ha hb
    simp only [List.mem_singleton] at hb
    subst hb
    exact hu ha⟩

lemma reset_getD_users (u np : List Char) (f : List Cred) :
    ((reset_password u np f).getD f).map Cred.user = f.map Cred.user := by
  unfold reset_password
  dsimp only
  by_cases h : (reset_loop u np f).2
  · simp only [h, if_true, Option.getD_some, reset_loop_fst, List.map_map]
    apply List.map_congr_left
    intro c _
    by_cases hc : c.user = u <;> simp [Function.comp, hc]
  · simp [h]

lemma remove_getD_users_sublist (u : List Char) (f : List Cred) :
    List.Sublist (((remove_credential u f).getD f).map Cred.user)
      (f.map Cred.user) := by
  unfold remove_credential
  dsimp only
  by_cases h : (remove_loop u f).2
  · simp only [h, if_true, Option.getD_some, remove_loop_fst]
    exact (List.filter_sublist f).map Cred.user
  · simp only [h, if_false, Bool.false_eq_true, Option.getD_none]
    exact List.Sublist.refl _

lemma safe_adds_unique (ops : List CredOp) :
    ∀ f : List Cred, (f.map Cred.user).Nodup → safe_adds f ops = true →
      ((apply_cred_ops f ops).map Cred.user).Nodup := by
  induction ops with
  | nil =>
    intro f hf _
    simpa [apply_cred_ops] using hf
  | cons op rest ih =>
    intro f hf hsafe
    cases op with
    | auth u p =>
      simp only [safe_adds, Bool.true_and] at hsafe
      exact ih _ hf hsafe
    | add u p r =>
      simp only [safe_adds, Bool.and_eq_true, Bool.not_eq_true',
        decide_eq_false_iff_not] at hsafe
      exact ih _ (add_credential_users_nodup u p r f hf hsafe.1) hsafe.2
    | reset u np =>
      simp only [safe_adds, Bool.true_and] at hsafe
      refine ih _ ?_ hsafe
      show (((reset_password u np f).getD f).map Cred.user).Nodup
      rw [reset_getD_users]
      exact hf
    | remove u =>
      simp only [safe_adds, Bool.true_and] at hsafe
      exact ih _ (hf.sublist (remove_getD_users_sublist u f)) hsafe

/-- C4, counterexample: starting from the bootstrapped credential file,
`add_credential` invoked with the already present username "admin"
produces a second row for "admin", so the one-row-per-username invariant
is violated by the claimed operation sequence. -/
theorem add_credential_duplicate_counterexample :
    ¬ ((apply_cred_ops ensure_default_credentials
         [CredOp.add "admin".toList "x".toList "ADMIN".toList]).map Cred.user).Nodup ∧
    ((apply_cred_ops ensure_default_credentials
         [CredOp.add "admin".toList "x".toList "ADMIN".toList]).map
           Cred.user).count "admin".toList = 2 := by
  constructor <;> decide

/-- C4, amended: after any sequence of credential-store operations
starting from the bootstrapped file in which every `add` is invoked with a
username not currently present, the file has exactly one row per username
(`add` with an existing username would append a duplicate row, as the
counterexample shows, so the invariant only holds for add-safe
sequences). -/
theorem credential_uniqueness_amended (ops : List CredOp)
    (hsafe : safe_adds ensure_default_credentials ops = true) :
    ((apply_cred_ops ensure_default_credentials ops).map Cred.user).Nodup :=
  safe_adds_unique ops ensure_default_credentials (by decide) hsafe

/-- Witness for C4 on a concrete add-safe sequence exercising all four
operations. -/
theorem credential_uniqueness_amended_witness :
    safe_adds ensure_default_credentials
        [CredOp.add "bob".toList "pw".toList "STAFF".toList,
         CredOp.reset "staff".toList "ns".toList,
         CredOp.remove "guest".toList,
         CredOp.auth "admin".toList "admin".toList] = true ∧
    ((apply_cred_ops ensure_default_credentials
        [CredOp.add "bob".toList "pw".toList "STAFF".toList,
         CredOp.reset "staff".toList "ns".toList,
         CredOp.remove "guest".toList,
         CredOp.auth "admin".toList "admin".toList]).map Cred.user).Nodup :=
  ⟨by decide, credential_uniqueness_amended _ (by decide)⟩

/-! ## Session-gated features and menus (C3)

The files owned by the program that the claim is about: the student
record file and the credential file; the backup file is carried too since
`feature_restore` reads it.  Features that only print (display, search,
statistics) or that write only the CSV/report files (`feature_export`)
leave this state unchanged. -/

/-- The on-disk state the guest/principal-reachable features can touch.
`students` is the raw byte content of `students.txt`; `backup` is `none`
when `students_backup.txt` does not exist. -/
structure Store where
  students : List Char
  creds : List Cred
  backup : Option (List Char)
  deriving DecidableEq, Repr

/-- `feature_backup` (srms.c:652-661): copy the student file to the backup
path. -/
def feature_backup (st : Store) : Store :=
  { st with backup := some st.students }

/-- `feature_restore` (srms.c:663-673): after a yes/no confirmation, copy
the backup file over the student file.  Faithful to the source: there is
no role check in this function. -/
def feature_restore (confirm : Bool) (st : Store) : Store :=
  if !confirm then st
  else
    match st.backup with
    | none => st
    | some b => { st with students := b }

/-- `xor_file` lifted to the character content of the student file (bytes
viewed as code points < 256). -/
def xorChars (key : Nat) (l : List Char) : List Char :=
  l.map (fun c => Char.ofNat ((c.toNat ^^^ key % 256) % 256))

/-- `feature_toggle_encryption` (srms.c:700-709): checked against the
session role; only ADMIN reaches the XOR transform. -/
def feature_toggle_encryption (role : List Char) (confirm : Bool) (key : Nat)
    (st : Store) : Store :=
  if ¬ role = "ADMIN".toList then st
  else if !confirm then st
  else { st with students := xorChars key st.students }

/-- `common_reports_menu` (srms.c:720-732), one iteration: choice 1 is
`feature_export` (writes only the CSV and report files, so `Store` is
unchanged), 2 backup, 3 restore, 4 encryption toggle; anything else
returns. -/
def common_reports_menu (role : List Char) (choice : Nat) (confirm : Bool)
    (key : Nat) (st : Store) : Store :=
  match choice with
  | 1 => st
  | 2 => feature_backup st
  | 3 => feature_restore confirm st
  | 4 => feature_toggle_encryption role confirm key st
  | _ => st

/-- `guest_menu` (srms.c:782-798), one iteration: 1 display, 2 search
(both read-only), 3 the reports submenu, 4 logout. -/
def guest_menu_step (choice sub : Nat) (confirm : Bool) (key : Nat)
    (st : Store) : Store :=
  match choice with
  | 1 => st
  | 2 => st
  | 3 => common_reports_menu "GUEST".toList sub confirm key st
  | _ => st

/-- `principal_menu` (srms.c:800-817), one iteration: 1 display, 2 search,
3 statistics (read-only), 4 the reports submenu, 5 logout. -/
def principal_menu_step (choice sub : Nat) (confirm : Bool) (key : Nat)
    (st : Store) : Store :=
  match choice with
  | 1 => st
  | 2 => st
  | 3 => st
  | 4 => common_reports_menu "PRINCIPAL".toList sub confirm key st
  | _ => st

/-- C3 fails on the code: in a GUEST session, menu choice 3
(Reports/Backup) then choice 3 (Restore) with a confirmed prompt runs
`feature_restore`, which performs no role check and overwrites the
student record file with the backup content; the same path exists from
the PRINCIPAL menu (choice 4 then 3).  Evaluated here on a store whose
backup differs from the student file. -/
theorem guest_restore_mutates_students :
    (guest_menu_step 3 3 true 0 ⟨['a'], ensure_default_credentials, some ['b']⟩).students
        = ['b'] ∧
    (guest_menu_step 3 3 true 0 ⟨['a'], ensure_default_credentials, some ['b']⟩).students
        ≠ (['a'] : List Char) ∧
    (principal_menu_step 4 3 true 0 ⟨['a'], ensure_default_credentials, some ['b']⟩).students
        = ['b'] := by
  refine ⟨rfl, by decide, rfl⟩

/-! ## Statistics (srms.c:604-620, C7) -/

/-- The accumulator variables of `feature_statistics`:
`maxPerc`/`minPerc`/`sum`/`pass` and the indices `maxIdx`/`minIdx`. -/
structure StatAcc where
  maxPerc : ℚ
  minPerc : ℚ
  sum : ℚ
  pass : Nat
  maxIdx : Nat
  minIdx : Nat
  deriving DecidableEq, Repr

/-- One iteration of the statistics loop (srms.c:611-616), in statement
order: add to `sum`, strict `>` test against `maxPerc`, strict `<` test
against `minPerc`, `>= 50` pass test. -/
def statStep (a : StatAcc) (i : Nat) (s : Student) : StatAcc :=
  let a1 := { a with sum := a.sum + s.percentage }
  let a2 := if s.percentage > a1.maxPerc
            then { a1 with maxPerc := s.percentage, maxIdx := i } else a1
  let a3 := if s.percentage < a2.minPerc
            then { a2 with minPerc := s.percentage, minIdx := i } else a2
  if s.percentage ≥ 50 then { a3 with pass := a3.pass + 1 } else a3

/-- The statistics loop over the snapshot, indices ascending. -/
def statsLoop : List Student → Nat → StatAcc → StatAcc
  | [], _, a => a
  | s :: rest, i, a => statsLoop rest (i + 1) (statStep a i s)

/-- `feature_statistics` (srms.c:604-620): prints nothing computable on an
empty snapshot ("No records."); otherwise runs the loop from the
initializers `maxPerc = -1`, `minPerc = 101`, `sum = 0`, `pass = 0`,
`maxIdx = minIdx = 0`.  The printed average is `sum / n` and the printed
fail count is `n - pass`. -/
def feature_statistics (arr : List Student) : Option StatAcc :=
  if arr = [] then none
  else some (statsLoop arr 0 ⟨-1, 101, 0, 0, 0, 0⟩)

/-- The percentage of the record at index `i` of a snapshot. -/
def percAt (arr : List Student) (i : Nat) : ℚ :=
  (arr.map Student.percentage).getD i 0

/-- What the statistics accumulator states about a processed snapshot:
sum and pass count, and that `maxIdx`/`minIdx` point at the first
maximum/minimum percentage holders in snapshot order. -/
def StatInv (done : List Student) (a : StatAcc) : Prop :=
  a.sum = (done.map Student.percentage).sum ∧
  a.pass = done.countP (fun s => decide (s.percentage ≥ 50)) ∧
  a.maxIdx < done.length ∧
  a.maxPerc = percAt done a.maxIdx ∧
  (∀ j < done.length, percAt done j ≤ a.maxPerc) ∧
  (∀ j < a.maxIdx, percAt done j < a.maxPerc) ∧
  a.minIdx < done.length ∧
  a.minPerc = percAt done a.minIdx ∧
  (∀ j < done.length, a.minPerc ≤ percAt done j) ∧
  (∀ j < a.minIdx, a.minPerc < percAt done j)

lemma percAt_append_lt (l : List Student) (s : Student) (j : Nat)
    (h : j < l.length) : percAt (l ++ [s]) j = percAt l j := by
  unfold percAt
  rw [List.map_append]
  rw [List.getD_append]
  simpa using h

lemma percAt_append_len (l : List Student) (s : Student) :
    percAt (l ++ [s]) l.length = s.percentage := by
  unfold percAt
  rw [List.map_append]
  rw [show l.length = (List.map Student.percentage l).length from
    (List.length_map _ _).symm]
  rw [List.getD_append_right _ _ _ _ (le_refl _)]
  simp

lemma statStep_fields (a : StatAcc) (i : Nat) (s : Student) :
    statStep a i s =
      ⟨if s.percentage > a.maxPerc then s.percentage else a.maxPerc,
       if s.percentage < a.minPerc then s.percentage else a.minPerc,
       a.sum + s.percentage,
       if s.percentage ≥ 50 then a.pass + 1 else a.pass,
       if s.percentage > a.maxPerc then i else a.maxIdx,
       if s.percentage < a.minPerc then i else a.minIdx⟩ := by
  unfold statStep
  dsimp only
  by_cases hM : s.percentage > a.maxPerc <;>
    by_cases hm : s.percentage < a.minPerc <;>
      by_cases hp : s.percentage ≥ 50 <;>
        simp [hM, hm, hp]

lemma statStep_inv (done : List Student) (a : StatAcc) (s : Student)
    (h : StatInv done a) : StatInv (done ++ [s]) (statStep a done.length s) := by
  obtain ⟨hsum, hpass, hmaxlt, hmaxv, hmaxub, hmaxfst, hminlt, hminv, hminlb, hminfst⟩ := h
  rw [statStep_fields]
  unfold StatInv
  dsimp only
  have hlen : (done ++ [s]).length = done.length + 1 := by simp
  refine ⟨?_, ?_, ?_, ?_, ?_, ?_, ?_, ?_, ?_, ?_⟩
  · simp [hsum]
  · by_cases hp : s.percentage ≥ 50 <;> simp [hp, hpass, List.countP_append]
  · split_ifs <;> rw [hlen] <;> omega
  · split_ifs with hM
    · rw [percAt_append_len]
    · rw [percAt_append_lt done s a.maxIdx hmaxlt]
      exact hmaxv
  · intro j hj
    rw [hlen] at hj
    rcases Nat.lt_succ_iff_lt_or_eq.mp hj with hj' | hj'
    · rw [percAt_append_lt done s j hj']
      split_ifs with hM
      · exact le_of_lt (lt_of_le_of_lt (hmaxub j hj') hM)
      · exact hmaxub j hj'
    · subst hj'
      rw [percAt_append_len]
      split_ifs with hM
      · exact le_refl _
      · exact le_of_not_lt hM
  · intro j hj
    split_ifs at hj ⊢ with hM
    · rw [percAt_append_lt done s j hj]
      exact lt_of_le_of_lt (hmaxub j hj) hM
    · rw [percAt_append_lt done s j (lt_trans hj hmaxlt)]
      exact hmaxfst j hj
  · split_ifs <;> rw [hlen] <;> omega
  · split_ifs with hm
    · rw [percAt_append_len]
    · rw [percAt_append_lt done s a.minIdx hminlt]
      exact hminv
  · intro j hj
    rw [hlen] at hj
    rcases Nat.lt_succ_iff_lt_or_eq.mp hj with hj' | hj'
    · rw [percAt_append_lt done s j hj']
      split_ifs with hm
      · exact le_of_lt (lt_of_lt_of_le hm (hminlb j hj'))
      · exact hminlb j hj'
    · subst hj'
      rw [percAt_append_len]
      split_ifs with hm
      · exact le_refl _
      · exact le_of_not_lt hm
  · intro j hj
    split_ifs at hj ⊢ with hm
    · rw [percAt_append_lt done s j hj]
      exact lt_of_lt_of_le hm (hminlb j hj)
    · rw [percAt_append_lt done s j (lt_trans hj hminlt)]
      exact hminfst j hj

lemma statsLoop_inv (l : List Student) :
    ∀ (done : List Student) (a : StatAcc), StatInv done a →
      StatInv (done ++ l) (statsLoop l done.length a) := by
  induction l with
  | nil =>
    intro done a h
    simpa using h
  | cons s rest ih =>
    intro done a h
    have h2 := ih (done ++ [s]) (statStep a done.length s) (statStep_inv done a s h)
    simpa [statsLoop, List.length_append] using h2

lemma statStep_init (s : Student) (h0 : 0 ≤ s.percentage)
    (h1 : s.percentage ≤ 100) :
    StatInv [s] (statStep ⟨-1, 101, 0, 0, 0, 0⟩ 0 s) := by
  have hM : s.percentage > (-1 : ℚ) := lt_of_lt_of_le (by norm_num) h0
  have hm : s.percentage < (101 : ℚ) := lt_of_le_of_lt h1 (by norm_num)
  rw [statStep_fields]
  unfold StatInv
  dsimp only
  rw [if_pos hM, if_pos hm, if_pos hM, if_pos hm]
  refine ⟨by simp, ?_, by simp, by simp [percAt], ?_, ?_, by simp, by simp [percAt], ?_, ?_⟩
  · by_cases hp : s.percentage ≥ 50 <;> simp [hp]
  · intro j hj
    simp only [List.length_singleton] at hj
    have hj0 : j = 0 := by omega
    subst hj0
    simp [percAt]
  · intro j hj
    exact absurd hj (Nat.not_lt_zero j)
  · intro j hj
    simp only [List.length_singleton] at hj
    have hj0 : j = 0 := by omega
    subst hj0
    simp [percAt]
  · intro j hj
    exact absurd hj (Nat.not_lt_zero j)

/-- C7: on a non-empty snapshot of records whose stored percentages lie in
[0,100] (the data-model invariant for marks in [0,100]),
`feature_statistics` accumulates `sum` = the sum of all percentages (its
printed average is `sum / n`), selects with strict `>`/`<` the first
maximum and first minimum percentage holders in snapshot order
(`StatInv`), counts `pass` = number of records with percentage ≥ 50, and
prints fail = n − pass = number of records with percentage < 50. -/
theorem feature_statistics_correct (arr : List Student) (hne : arr ≠ [])
    (hrange : ∀ s ∈ arr, 0 ≤ s.percentage ∧ s.percentage ≤ 100) :
    ∃ acc, feature_statistics arr = some acc ∧ StatInv arr acc ∧
      arr.length - acc.pass = arr.countP (fun s => decide (s.percentage < 50)) := by
  obtain ⟨s, rest, rfl⟩ : ∃ s rest, arr = s :: rest := by
    cases arr with
    | nil => exact absurd rfl hne
    | cons a l => exact ⟨a, l, rfl⟩
  have h0 := hrange s (List.mem_cons_self s rest)
  have hinit := statStep_init s h0.1 h0.2
  have hloop := statsLoop_inv rest [s] (statStep ⟨-1, 101, 0, 0, 0, 0⟩ 0 s) hinit
  have hconv : ([s] ++ rest) = s :: rest := rfl
  rw [hconv] at hloop
  refine ⟨statsLoop rest [s].length (statStep ⟨-1, 101, 0, 0, 0, 0⟩ 0 s), ?_, hloop, ?_⟩
  · simp only [feature_statistics, if_neg (List.cons_ne_nil s rest)]
    rfl
  · rw [hloop.2.1]
    have hsplit := List.length_eq_countP_add_countP
      (p := fun t : Student => decide (t.percentage ≥ 50)) (s :: rest)
    have hcongr : (s :: rest).countP (fun t : Student => !decide (t.percentage ≥ 50)) =
        (s :: rest).countP (fun t : Student => decide (t.percentage < 50)) := by
      apply List.countP_congr
      intro t _
      by_cases ht : t.percentage ≥ 50 <;> simp [ht, not_le, lt_of_not_ge]
    simp only [decide_eq_true_eq, decide_not] at hsplit
    rw [hcongr] at hsplit
    omega

/-- Witness for C7 on the three-record snapshot with percentages
40, 70, 70: the accumulator comes out as maxPerc 70, minPerc 40, sum 180
(average 60), pass 2 (fail 1), maxIdx 1 (the first of the two 70s),
minIdx 0. -/
theorem feature_statistics_correct_witness :
    (([⟨1, ['x'], 40, 40, 40, 120, 40, "F"⟩, ⟨2, ['y'], 70, 70, 70, 210, 70, "B"⟩,
       ⟨3, ['z'], 70, 70, 70, 210, 70, "B"⟩] : List Student) ≠ []) ∧
    (∀ s ∈ ([⟨1, ['x'], 40, 40, 40, 120, 40, "F"⟩, ⟨2, ['y'], 70, 70, 70, 210, 70, "B"⟩,
       ⟨3, ['z'], 70, 70, 70, 210, 70, "B"⟩] : List Student),
       0 ≤ s.percentage ∧ s.percentage ≤ 100) ∧
    (∃ acc, feature_statistics
        [⟨1, ['x'], 40, 40, 40, 120, 40, "F"⟩, ⟨2, ['y'], 70, 70, 70, 210, 70, "B"⟩,
         ⟨3, ['z'], 70, 70, 70, 210, 70, "B"⟩] = some acc ∧
      StatInv [⟨1, ['x'], 40, 40, 40, 120, 40, "F"⟩, ⟨2, ['y'], 70, 70, 70, 210, 70, "B"⟩,
         ⟨3, ['z'], 70, 70, 70, 210, 70, "B"⟩] acc ∧
      ([⟨1, ['x'], 40, 40, 40, 120, 40, "F"⟩, ⟨2, ['y'], 70, 70, 70, 210, 70, "B"⟩,
         ⟨3, ['z'], 70, 70, 70, 210, 70, "B"⟩] : List Student).length - acc.pass =
        ([⟨1, ['x'], 40, 40, 40, 120, 40, "F"⟩, ⟨2, ['y'], 70, 70, 70, 210, 70, "B"⟩,
         ⟨3, ['z'], 70, 70, 70, 210, 70, "B"⟩] : List Student).countP
          (fun s => decide (s.percentage < 50))) ∧
    feature_statistics
        [⟨1, ['x'], 40, 40, 40, 120, 40, "F"⟩, ⟨2, ['y'], 70, 70, 70, 210, 70, "B"⟩,
         ⟨3, ['z'], 70, 70, 70, 210, 70, "B"⟩] = some ⟨70, 40, 180, 2, 1, 0⟩ :=
  ⟨by decide, by decide,
   feature_statistics_correct _ (by decide) (by decide),
   by
     norm_num [feature_statistics, statsLoop, statStep_fields]
     intro h
     exact absurd h (List.cons_ne_nil _ _)⟩

/-! ## Record codec (srms.c:243-274)

Primitives for the line format `roll|name|m1|m2|m3\n`: decimal rendering
(`printf %d`), two-decimal rendering (`printf %.2f`), `atoi`/`atof` on the
decimal forms the codec produces, and `strtok` tokenization. -/

/-- Digit renderer underlying printf `%d`: most-significant first; the
fuel argument (any bound ≥ n) makes the recursion structural. -/
def natReprAux : Nat → Nat → List Char
  | 0, _ => []
  | _ + 1, 0 => []
  | fuel + 1, n + 1 =>
    natReprAux fuel ((n + 1) / 10) ++ [Nat.digitChar ((n + 1) % 10)]

/-- The decimal digit characters of a natural number (printf `%d` for
nonnegative values). -/
def natRepr (n : Nat) : List Char :=
  if n = 0 then ['0'] else natReprAux n n

/-- printf `%d` for a C int. -/
def intRepr (n : Int) : List Char :=
  if n < 0 then '-' :: natRepr n.natAbs else natRepr n.natAbs

/-- The digit-accumulating loop shared by `atoi`/`atof`: value of a
big-endian digit-character run. -/
def foldDigits (l : List Char) : Nat :=
  l.foldl (fun a c => a * 10 + (c.toNat - 48)) 0

/-- C `isspace` in the default locale. -/
def isSpaceC (c : Char) : Bool :=
  c = ' ' ∨ c = '\t' ∨ c = '\n' ∨ c = '\x0b' ∨ c = '\x0c' ∨ c = '\r'

/-- `atoi` (used at srms.c:262): skip leading whitespace, optional sign,
then the longest digit run. -/
def atoiC (l : List Char) : Int :=
  let l1 := l.dropWhile isSpaceC
  let sgn : Int := if l1.head? = some '-' then -1 else 1
  let l2 := if l1.head? = some '-' ∨ l1.head? = some '+' then l1.tail else l1
  sgn * (foldDigits (l2.takeWhile Char.isDigit) : Int)

/-- `atof` (used at srms.c:269), modelled on the plain decimal literals
this codec writes (optional sign, digit run, optional '.' and fraction
digit run; the codec never writes exponents). -/
def atofQ (l : List Char) : ℚ :=
  let l1 := l.dropWhile isSpaceC
  let sgn : ℚ := if l1.head? = some '-' then -1 else 1
  let l2 := if l1.head? = some '-' ∨ l1.head? = some '+' then l1.tail else l1
  let ds := l2.takeWhile Char.isDigit
  let rest := l2.dropWhile Char.isDigit
  let fs := rest.tail.takeWhile Char.isDigit
  let v : ℚ :=
    if rest.head? = some '.'
    then (foldDigits ds : ℚ) + (foldDigits fs : ℚ) / (10 : ℚ) ^ fs.length
    else (foldDigits ds : ℚ)
  sgn * v

/-- printf `%.2f`: round to the nearest hundredth and print with exactly
two fraction digits (sign handled for completeness; the codec only
formats marks, nonnegative under the claims). -/
def fmt2 (q : ℚ) : List Char :=
  let r : ℚ := |q| * 100 + 1 / 2
  let k : Nat := (r.num / (r.den : Int)).toNat
  (if q < 0 then ['-'] else []) ++
    natRepr (k / 100) ++ '.' :: [Nat.digitChar (k % 100 / 10), Nat.digitChar (k % 100 % 10)]

/-- Splitter underlying `strtok`: current chunk and the chunks after each
later delimiter. -/
def splitCh (d : Char) : List Char → List Char × List (List Char)
  | [] => ([], [])
  | c :: cs =>
    let r := splitCh d cs
    if c = d then ([], r.1 :: r.2) else (c :: r.1, r.2)

/-- The token sequence `strtok(line, "|")` yields across repeated calls:
the maximal nonempty runs of non-delimiter characters. -/
def strtokAll (d : Char) (l : List Char) : List (List Char) :=
  let r := splitCh d l
  (r.1 :: r.2).filter (fun t => decide (t ≠ []))

/-- `write_student_to_file` (srms.c:245-251):
`fprintf(fp, "%d|%s", roll, name)` then `"|%.2f"` per mark, then a
newline. -/
def write_student_to_file (s : Student) : List Char :=
  intRepr s.roll ++ '|' :: s.name ++ '|' :: fmt2 s.m1 ++ '|' :: fmt2 s.m2 ++
    '|' :: fmt2 s.m3 ++ ['\n']

/-- `parse_line_to_student` (srms.c:253-274): strip one trailing newline,
`strtok` on `'|'`; fail without the first two tokens; roll via `atoi`,
name via `strncpy` (at most `MAX_NAME - 1 = 99` characters), the next
three tokens via `atof` defaulting to 0 when absent; then
`calculate_student`. -/
def parse_line_to_student (line : List Char) : Option Student :=
  let l := if line.getLast? = some '\n' then line.dropLast else line
  match strtokAll '|' l with
  | t0 :: t1 :: rest =>
    some (calculate_student
      { roll := atoiC t0
        name := t1.take 99
        m1 := match rest[0]? with | some t => atofQ t | none => 0
        m2 := match rest[1]? with | some t => atofQ t | none => 0
        m3 := match rest[2]? with | some t => atofQ t | none => 0
        total := 0, percentage := 0, grade := "" })
  | _ => none

/-! ## Export (srms.c:622-650, C5) -/

/-- One CSV data row (srms.c:632-635): roll, double-quoted name, the three
marks, total and percentage in `%.2f`, grade. -/
def csv_row (s : Student) : List Char :=
  intRepr s.roll ++ ',' :: '"' :: s.name ++ '"' :: ',' :: fmt2 s.m1 ++
    ',' :: fmt2 s.m2 ++ ',' :: fmt2 s.m3 ++ ',' :: fmt2 s.total ++
    ',' :: fmt2 s.percentage ++ ',' :: s.grade.toList ++ ['\n']

/-- The CSV header row (srms.c:629-631) with the three subject names. -/
def csv_header : List Char :=
  "Roll,Name,Math,Science,English,Total,Percentage,Grade".toList ++ ['\n']

/-- One report block (srms.c:642-644): the record's fields line by line,
then the separator line. -/
def report_row (s : Student) : List Char :=
  "Roll: ".toList ++ intRepr s.roll ++ '\n' :: "Name: ".toList ++ s.name ++
    '\n' :: "Math: ".toList ++ fmt2 s.m1 ++ '\n' :: "Science: ".toList ++
    fmt2 s.m2 ++ '\n' :: "English: ".toList ++ fmt2 s.m3 ++
    '\n' :: "Total: ".toList ++ fmt2 s.total ++
    '\n' :: "Percentage: ".toList ++ fmt2 s.percentage ++
    '\n' :: "Grade: ".toList ++ s.grade.toList ++
    '\n' :: "-----------------\n".toList

/-- The full CSV output for a snapshot. -/
def renderCSV (arr : List Student) : List Char :=
  csv_header ++ arr.foldr (fun s acc => csv_row s ++ acc) []

/-- The full report output for a snapshot, `ts` being the `ctime`
timestamp text. -/
def renderReport (ts : List Char) (arr : List Student) : List Char :=
  "Student Report Generated on ".toList ++ ts ++ '\n' :: '\n' ::
    arr.foldr (fun s acc => report_row s ++ acc) []

/-- The contents of the two export output files. -/
structure ExportState where
  csv : List Char
  report : List Char
  deriving DecidableEq, Repr

/-- `feature_export` (srms.c:622-650).  The Booleans say whether
`fopen(CSV_FILE, "w")` / `fopen(REPORT_FILE, "w")` succeed; a successful
`"w"` open truncates that file at once.  With an empty snapshot nothing is
opened; with either open failing, the opened files are closed and the
error message is printed (second component `true`); otherwise the header,
the rows, and the timestamped report are written sequentially. -/
def feature_export (arr : List Student) (ts : List Char)
    (csvOpens reportOpens : Bool) (prior : ExportState) : ExportState × Bool :=
  if arr = [] then (prior, false)
  else
    let csv0 := if csvOpens then [] else prior.csv
    let rep0 := if reportOpens then [] else prior.report
    if ¬ (csvOpens = true ∧ reportOpens = true) then ({ csv := csv0, report := rep0 }, true)
    else
      let csv1 := csv0 ++ csv_header
      let csv2 := arr.foldl (fun acc s => acc ++ csv_row s) csv1
      let rep1 := rep0 ++ "Student Report Generated on ".toList ++ ts ++ ['\n', '\n']
      let rep2 := arr.foldl (fun acc s => acc ++ report_row s) rep1
      ({ csv := csv2, report := rep2 }, false)

lemma foldl_append_rows (f : Student → List Char) :
    ∀ (l : List Student) (init : List Char),
      l.foldl (fun acc s => acc ++ f s) init =
        init ++ l.foldr (fun s acc => f s ++ acc) [] := by
  intro l
  induction l with
  | nil =>
    intro init
    simp
  | cons s rest ih =>
    intro init
    simp only [List.foldl_cons, List.foldr_cons, ih, List.append_assoc]

/-- C5, counterexample: with a one-record snapshot, when the CSV file
opens but the report file does not, `feature_export` reports the error
and writes no data, yet the CSV file has already been truncated by
`fopen("w")`: its prior content "x" is destroyed, contradicting
"nothing is written; both output files keep their prior content". -/
theorem export_truncates_counterexample :
    (feature_export [⟨1, ['A'], 90, 85, 95, 270, 90, "A+"⟩] [] true false
        ⟨['x'], ['y']⟩).2 = true ∧
    (feature_export [⟨1, ['A'], 90, 85, 95, 270, 90, "A+"⟩] [] true false
        ⟨['x'], ['y']⟩).1.csv = [] ∧
    ¬ (feature_export [⟨1, ['A'], 90, 85, 95, 270, 90, "A+"⟩] [] true false
        ⟨['x'], ['y']⟩).1.csv = ['x'] := by
  refine ⟨rfl, rfl, by decide⟩

/-- C5, amended: on a non-empty snapshot, if both output files open, both
outputs are derived from the same snapshot (`renderCSV arr` and
`renderReport ts arr`) and no error is reported; if either fails to open,
an error is reported and no snapshot data is written, but each output
file that did open has been truncated to empty by `fopen("w")` — only a
file that itself failed to open keeps its prior content. -/
theorem feature_export_amended (arr : List Student) (ts : List Char)
    (csvOpens reportOpens : Bool) (prior : ExportState) (hne : arr ≠ []) :
    (csvOpens = true → reportOpens = true →
      feature_export arr ts csvOpens reportOpens prior =
        ({ csv := renderCSV arr, report := renderReport ts arr }, false)) ∧
    (¬ (csvOpens = true ∧ reportOpens = true) →
      (feature_export arr ts csvOpens reportOpens prior).2 = true ∧
      (feature_export arr ts csvOpens reportOpens prior).1.csv =
        (if csvOpens then [] else prior.csv) ∧
      (feature_export arr ts csvOpens reportOpens prior).1.report =
        (if reportOpens then [] else prior.report)) := by
  constructor
  · intro hc hr
    subst hc
    subst hr
    unfold feature_export
    rw [if_neg hne]
    dsimp only
    rw [if_neg (by simp)]
    rw [foldl_append_rows, foldl_append_rows]
    unfold renderCSV renderReport
    simp
  · intro hfail
    unfold feature_export
    rw [if_neg hne]
    dsimp only
    rw [if_pos hfail]
    exact ⟨rfl, rfl, rfl⟩

/-- Witness for C5: both branches at concrete inputs (one-record
snapshot). -/
theorem feature_export_amended_witness :
    (([⟨1, ['A'], 90, 85, 95, 270, 90, "A+"⟩] : List Student) ≠ []) ∧
    ((true = true → true = true →
      feature_export [⟨1, ['A'], 90, 85, 95, 270, 90, "A+"⟩] ['T'] true true
          ⟨['x'], ['y']⟩ =
        ({ csv := renderCSV [⟨1, ['A'], 90, 85, 95, 270, 90, "A+"⟩],
           report := renderReport ['T'] [⟨1, ['A'], 90, 85, 95, 270, 90, "A+"⟩] },
         false)) ∧
    (¬ (true = true ∧ true = true) →
      (feature_export [⟨1, ['A'], 90, 85, 95, 270, 90, "A+"⟩] ['T'] true true
          ⟨['x'], ['y']⟩).2 = true ∧
      (feature_export [⟨1, ['A'], 90, 85, 95, 270, 90, "A+"⟩] ['T'] true true
          ⟨['x'], ['y']⟩).1.csv = (if true then [] else (⟨['x'], ['y']⟩ : ExportState).csv) ∧
      (feature_export [⟨1, ['A'], 90, 85, 95, 270, 90, "A+"⟩] ['T'] true true
          ⟨['x'], ['y']⟩).1.report =
        (if true then [] else (⟨['x'], ['y']⟩ : ExportState).report))) :=
  ⟨by decide,
   feature_export_amended [⟨1, ['A'], 90, 85, 95, 270, 90, "A+"⟩] ['T'] true true
     ⟨['x'], ['y']⟩ (by decide)⟩

/-! ## Round-trip of the record codec (C2) -/

lemma digitChar_facts : ∀ d, d < 10 →
    (Nat.digitChar d).isDigit = true ∧ (Nat.digitChar d).toNat - 48 = d ∧
      Nat.digitChar d ≠ '|' := by decide

lemma isDigit_ne_pipe (c : Char) (h : c.isDigit = true) : c ≠ '|' := by
  rintro rfl
  exact absurd h (by decide)

lemma isDigit_head_facts (c : Char) (h : c.isDigit = true) :
    isSpaceC c = false ∧ c ≠ '-' ∧ c ≠ '+' := by
  refine ⟨?_, ?_, ?_⟩
  · unfold isSpaceC
    simp only [decide_eq_false_iff_not]
    rintro (rfl | rfl | rfl | rfl | rfl | rfl) <;> exact absurd h (by decide)
  · rintro rfl
    exact absurd h (by decide)
  · rintro rfl
    exact absurd h (by decide)

lemma foldDigits_append_singleton (xs : List Char) (c : Char) :
    foldDigits (xs ++ [c]) = foldDigits xs * 10 + (c.toNat - 48) := by
  simp [foldDigits, List.foldl_append]

lemma natReprAux_digits : ∀ (fuel n : Nat), ∀ c ∈ natReprAux fuel n, c.isDigit = true := by
  intro fuel
  induction fuel with
  | zero =>
    intro n c hc
    simp [natReprAux] at hc
  | succ f ih =>
    intro n c hc
    match n with
    | 0 => simp [natReprAux] at hc
    | m + 1 =>
      rw [natReprAux] at hc
      rcases List.mem_append.mp hc with h | h
      · exact ih _ c h
      · rw [List.mem_singleton] at h
        subst h
        exact (digitChar_facts ((m + 1) % 10) (Nat.mod_lt _ (by norm_num))).1

lemma natReprAux_ne_nil : ∀ (fuel n : Nat), n ≠ 0 → n ≤ fuel → natReprAux fuel n ≠ [] := by
  intro fuel n hn hle
  match fuel, n with
  | 0, n => omega
  | f + 1, 0 => exact absurd rfl hn
  | f + 1, m + 1 =>
    rw [natReprAux]
    simp

lemma foldDigits_natReprAux : ∀ (fuel n : Nat), n ≤ fuel →
    foldDigits (natReprAux fuel n) = n := by
  intro fuel
  induction fuel with
  | zero =>
    intro n hn
    have h0 : n = 0 := by omega
    subst h0
    simp [natReprAux, foldDigits]
  | succ f ih =>
    intro n hn
    match n with
    | 0 => simp [natReprAux, foldDigits]
    | m + 1 =>
      rw [natReprAux, foldDigits_append_singleton]
      have hlt : (m + 1) / 10 < m + 1 := Nat.div_lt_self (Nat.succ_pos m) (by norm_num)
      rw [ih ((m + 1) / 10) (by omega)]
      rw [(digitChar_facts ((m + 1) % 10) (Nat.mod_lt _ (by norm_num))).2.1]
      omega

lemma natRepr_digits (n : Nat) : ∀ c ∈ natRepr n, c.isDigit = true := by
  unfold natRepr
  by_cases h0 : n = 0
  · rw [if_pos h0]
    intro c hc
    rw [List.mem_singleton] at hc
    subst hc
    decide
  · rw [if_neg h0]
    exact natReprAux_digits n n

lemma natRepr_ne_nil (n : Nat) : natRepr n ≠ [] := by
  unfold natRepr
  by_cases h0 : n = 0
  · rw [if_pos h0]
    simp
  · rw [if_neg h0]
    exact natReprAux_ne_nil n n h0 (le_refl n)

lemma foldDigits_natRepr (n : Nat) : foldDigits (natRepr n) = n := by
  unfold natRepr
  by_cases h0 : n = 0
  · rw [if_pos h0, h0]
    decide
  · rw [if_neg h0]
    exact foldDigits_natReprAux n n (le_refl n)

lemma intRepr_ne_nil (n : Int) : intRepr n ≠ [] := by
  unfold intRepr
  by_cases hneg : n < 0
  · rw [if_pos hneg]
    simp
  · rw [if_neg hneg]
    exact natRepr_ne_nil _

lemma intRepr_no_pipe (n : Int) : ∀ c ∈ intRepr n, c ≠ '|' := by
  unfold intRepr
  intro c hc
  by_cases hneg : n < 0
  · rw [if_pos hneg] at hc
    rcases List.mem_cons.mp hc with h | h
    · subst h
      decide
    · exact isDigit_ne_pipe c (natRepr_digits _ c h)
  · rw [if_neg hneg] at hc
    exact isDigit_ne_pipe c (natRepr_digits _ c hc)

lemma takeWhile_dropWhile_append (p : Char → Bool) :
    ∀ (xs : List Char) (y : Char) (rest : List Char),
      (∀ x ∈ xs, p x = true) → p y = false →
      (xs ++ y :: rest).takeWhile p = xs ∧ (xs ++ y :: rest).dropWhile p = y :: rest := by
  intro xs
  induction xs with
  | nil =>
    intro y rest _ hy
    simp [List.takeWhile_cons, List.dropWhile_cons, hy]
  | cons a as ih =>
    intro y rest hall hy
    have ha := hall a (List.mem_cons_self a as)
    have ihr := ih y rest (fun x hx => hall x (List.mem_cons_of_mem a hx)) hy
    simp [List.takeWhile_cons, List.dropWhile_cons, ha, ihr.1, ihr.2]

lemma takeWhile_all (p : Char → Bool) (l : List Char) (h : ∀ x ∈ l, p x = true) :
    l.takeWhile p = l := by
  induction l with
  | nil => rfl
  | cons a as ih =>
    have ha := h a (List.mem_cons_self a as)
    simp [List.takeWhile_cons, ha, ih (fun x hx => h x (List.mem_cons_of_mem a hx))]

lemma atoiC_digits (l : List Char) (hne : l ≠ []) (hdig : ∀ c ∈ l, c.isDigit = true) :
    atoiC l = (foldDigits l : Int) := by
  obtain ⟨c, cs, rfl⟩ : ∃ c cs, l = c :: cs := by
    cases l with
    | nil => exact absurd rfl hne
    | cons c cs => exact ⟨c, cs, rfl⟩
  have hc := hdig c (List.mem_cons_self c cs)
  have hf := isDigit_head_facts c hc
  unfold atoiC
  dsimp only
  rw [List.dropWhile_cons, hf.1]
  simp only [Bool.false_eq_true, if_false, List.head?_cons, Option.some.injEq]
  rw [if_neg hf.2.1, if_neg (by rintro (h | h); exact hf.2.1 h; exact hf.2.2 h)]
  rw [takeWhile_all Char.isDigit (c :: cs) hdig]
  rw [one_mul]

lemma atoiC_intRepr (n : Int) : atoiC (intRepr n) = n := by
  by_cases hneg : n < 0
  · rw [intRepr, if_pos hneg]
    unfold atoiC
    dsimp only
    rw [List.dropWhile_cons]
    rw [show isSpaceC '-' = false from by decide]
    simp only [Bool.false_eq_true, if_false, List.head?_cons, Option.some.injEq,
      true_or, if_true, List.tail_cons]
    rw [takeWhile_all Char.isDigit _ (natRepr_digits _)]
    rw [foldDigits_natRepr]
    omega
  · rw [intRepr, if_neg hneg]
    rw [atoiC_digits _ (natRepr_ne_nil _) (natRepr_digits _), foldDigits_natRepr]
    omega

lemma atofQ_intfrac (a : List Char) (f1 f2 : Char) (hne : a ≠ [])
    (hdig : ∀ c ∈ a, c.isDigit = true) (h1 : f1.isDigit = true) (h2 : f2.isDigit = true) :
    atofQ (a ++ '.' :: [f1, f2]) =
      (foldDigits a : ℚ) + (((f1.toNat - 48) * 10 + (f2.toNat - 48) : ℕ) : ℚ) / 100 := by
  obtain ⟨c, cs, rfl⟩ : ∃ c cs, a = c :: cs := by
    cases a with
    | nil => exact absurd rfl hne
    | cons c cs => exact ⟨c, cs, rfl⟩
  have hc := hdig c (List.mem_cons_self c cs)
  have hf := isDigit_head_facts c hc
  have htd := takeWhile_dropWhile_append Char.isDigit (c :: cs) '.' [f1, f2] hdig (by decide)
  unfold atofQ
  dsimp only
  have hA : List.dropWhile isSpaceC ((c :: cs) ++ '.' :: [f1, f2]) =
      (c :: cs) ++ '.' :: [f1, f2] := by
    rw [List.cons_append, List.dropWhile_cons, hf.1]
    simp
  rw [hA]
  have hhead : ((c :: cs) ++ '.' :: [f1, f2]).head? = some c := rfl
  rw [hhead]
  have hs1 : ¬ ((some c : Option Char) = some '-') :=
    fun h => hf.2.1 (Option.some.inj h)
  have hs2 : ¬ ((some c : Option Char) = some '-' ∨ (some c : Option Char) = some '+') := by
    rintro (h | h)
    · exact hf.2.1 (Option.some.inj h)
    · exact hf.2.2 (Option.some.inj h)
  rw [if_neg hs1, if_neg hs2]
  rw [htd.1, htd.2]
  rw [if_pos (show (('.' :: [f1, f2] : List Char)).head? = some '.' from rfl), List.tail_cons]
  rw [takeWhile_all Char.isDigit [f1, f2] (by
    intro x hx
    rcases List.mem_cons.mp hx with h | h
    · subst h; exact h1
    · rw [List.mem_singleton] at h; subst h; exact h2)]
  have hfold : foldDigits [f1, f2] = (f1.toNat - 48) * 10 + (f2.toNat - 48) := by
    simp [foldDigits]
  rw [hfold]
  have hlen : ([f1, f2] : List Char).length = 2 := rfl
  rw [hlen, one_mul]
  norm_num

lemma fmt2_hundredths (k : Nat) :
    fmt2 ((k : ℚ) / 100) =
      natRepr (k / 100) ++ '.' ::
        [Nat.digitChar (k % 100 / 10), Nat.digitChar (k % 100 % 10)] := by
  unfold fmt2
  dsimp only
  have hq : ¬ ((k : ℚ) / 100 < 0) := not_lt.mpr (by positivity)
  rw [if_neg hq]
  have habs : |(k : ℚ) / 100| = (k : ℚ) / 100 := abs_of_nonneg (by positivity)
  rw [habs]
  have harith : (k : ℚ) / 100 * 100 + 1 / 2 = (k : ℚ) + 1 / 2 := by
    field_simp
  rw [harith]
  have hfloor : ((k : ℚ) + 1 / 2).num / (((k : ℚ) + 1 / 2).den : Int) = (k : Int) := by
    rw [← Rat.floor_def]
    rw [Int.floor_eq_iff]
    constructor
    · push_cast
      linarith
    · push_cast
      linarith
  rw [hfloor]
  simp

lemma fmt2_digits_shape (k : Nat) :
    (∀ c ∈ fmt2 ((k : ℚ) / 100), c ≠ '|') ∧ fmt2 ((k : ℚ) / 100) ≠ [] := by
  rw [fmt2_hundredths]
  constructor
  · intro c hc
    rcases List.mem_append.mp hc with h | h
    · exact isDigit_ne_pipe c (natRepr_digits _ c h)
    · rcases List.mem_cons.mp h with h | h
      · subst h; decide
      · rcases List.mem_cons.mp h with h | h
        · subst h
          exact (digitChar_facts _ (by omega)).2.2
        · rw [List.mem_singleton] at h
          subst h
          exact (digitChar_facts _ (by omega)).2.2
  · intro h
    rcases List.append_eq_nil.mp h with ⟨_, h2⟩
    exact List.cons_ne_nil _ _ h2

lemma atofQ_fmt2 (k : Nat) : atofQ (fmt2 ((k : ℚ) / 100)) = (k : ℚ) / 100 := by
  rw [fmt2_hundredths]
  rw [atofQ_intfrac _ _ _ (natRepr_ne_nil _) (natRepr_digits _)
    (digitChar_facts (k % 100 / 10) (by omega)).1
    (digitChar_facts (k % 100 % 10) (by omega)).1]
  rw [foldDigits_natRepr]
  rw [(digitChar_facts (k % 100 / 10) (by omega)).2.1,
    (digitChar_facts (k % 100 % 10) (by omega)).2.1]
  have h1 : k % 100 / 10 * 10 + k % 100 % 10 = k % 100 := by omega
  rw [h1]
  have h2 : (k : ℚ) = 100 * ((k / 100 : ℕ) : ℚ) + ((k % 100 : ℕ) : ℚ) := by
    exact_mod_cast (Nat.div_add_mod k 100).symm
  rw [h2]
  ring

lemma splitCh_append_no_delim (d : Char) (xs : List Char) (hxs : ∀ c ∈ xs, c ≠ d) :
    ∀ l, splitCh d (xs ++ l) = (xs ++ (splitCh d l).1, (splitCh d l).2) := by
  induction xs with
  | nil =>
    intro l
    simp
  | cons c cs ih =>
    intro l
    have hc : c ≠ d := hxs c (List.mem_cons_self c cs)
    rw [List.cons_append, splitCh]
    rw [ih (fun x hx => hxs x (List.mem_cons_of_mem c hx)) l]
    simp [hc]

lemma strtokAll_cons (d : Char) (xs l : List Char)
    (hne : xs ≠ []) (hxs : ∀ c ∈ xs, c ≠ d) :
    strtokAll d (xs ++ d :: l) = xs :: strtokAll d l := by
  unfold strtokAll
  rw [splitCh_append_no_delim d xs hxs (d :: l)]
  rw [show splitCh d (d :: l) = ([], (splitCh d l).1 :: (splitCh d l).2) from by
    rw [splitCh]; simp]
  dsimp only
  rw [List.append_nil]
  rw [List.filter_cons, if_pos (by simpa using hne)]

lemma strtokAll_last (d : Char) (xs : List Char)
    (hne : xs ≠ []) (hxs : ∀ c ∈ xs, c ≠ d) :
    strtokAll d xs = [xs] := by
  unfold strtokAll
  have h := splitCh_append_no_delim d xs hxs []
  rw [List.append_nil] at h
  rw [h]
  rw [show splitCh d [] = ([], []) from rfl]
  dsimp only
  rw [List.append_nil]
  rw [List.filter_cons, if_pos (by simpa using hne)]
  rfl

lemma calculate_student_congr (s t : Student) (hr : s.roll = t.roll)
    (hn : s.name = t.name) (h1 : s.m1 = t.m1) (h2 : s.m2 = t.m2)
    (h3 : s.m3 = t.m3) : calculate_student s = calculate_student t := by
  cases s
  cases t
  dsimp at hr hn h1 h2 h3
  subst hr
  subst hn
  subst h1
  subst h2
  subst h3
  rfl

lemma write_calc_shape (s : Student) :
    write_student_to_file (calculate_student s) =
      (intRepr s.roll ++ '|' :: (s.name ++ '|' :: (fmt2 s.m1 ++ '|' :: (fmt2 s.m2 ++
        '|' :: fmt2 s.m3)))) ++ ['\n'] := by
  simp [write_student_to_file, calculate_student, List.append_assoc]

/-- C2, amended: round-trip holds for students whose name is non-empty,
fits the `char name[100]` field (≤ 99 characters) and contains no `'|'`
delimiter, and whose marks in [0,100] are exact hundredths (what `%.2f`
can represent); the counterexample shows it fails as soon as the name
contains the delimiter or a mark is not a multiple of 0.01. -/
theorem roundtrip_amended (s : Student)
    (hname_ne : s.name ≠ [])
    (hname_len : s.name.length ≤ 99)
    (hname_pipe : ∀ c ∈ s.name, c ≠ '|')
    (hm1 : ∃ k : ℕ, k ≤ 10000 ∧ s.m1 = (k : ℚ) / 100)
    (hm2 : ∃ k : ℕ, k ≤ 10000 ∧ s.m2 = (k : ℚ) / 100)
    (hm3 : ∃ k : ℕ, k ≤ 10000 ∧ s.m3 = (k : ℚ) / 100) :
    parse_line_to_student (write_student_to_file (calculate_student s)) =
      some (calculate_student s) := by
  obtain ⟨k1, _, hv1⟩ := hm1
  obtain ⟨k2, _, hv2⟩ := hm2
  obtain ⟨k3, _, hv3⟩ := hm3
  rw [write_calc_shape]
  unfold parse_line_to_student
  dsimp only
  rw [List.getLast?_concat, if_pos rfl, List.dropLast_concat]
  rw [strtokAll_cons _ _ _ (intRepr_ne_nil _) (intRepr_no_pipe _)]
  rw [strtokAll_cons _ _ _ hname_ne hname_pipe]
  rw [strtokAll_cons _ _ _ (hv1 ▸ (fmt2_digits_shape k1).2) (hv1 ▸ (fmt2_digits_shape k1).1)]
  rw [strtokAll_cons _ _ _ (hv2 ▸ (fmt2_digits_shape k2).2) (hv2 ▸ (fmt2_digits_shape k2).1)]
  rw [strtokAll_last _ _ (hv3 ▸ (fmt2_digits_shape k3).2) (hv3 ▸ (fmt2_digits_shape k3).1)]
  dsimp only
  rw [atoiC_intRepr]
  rw [List.take_of_length_le hname_len]
  rw [hv1, hv2, hv3]
  simp only [List.getElem?_cons_zero, List.getElem?_cons_succ]
  rw [atofQ_fmt2 k1, atofQ_fmt2 k2, atofQ_fmt2 k3]
  exact congrArg some (calculate_student_congr _ _ rfl rfl hv1.symm hv2.symm hv3.symm)

/-- C2, counterexample: the student with valid roll 1, non-empty name
"a|b", and marks (50, 0, 0) each in [0,100] does not round-trip: the
name's `'|'` shifts the token positions, so decode returns name "a" (and
then an extra mark token), not the original record.  (A mark that is not
a multiple of 0.01, e.g. 1/3, similarly breaks the round trip through
`%.2f` truncation.) -/
theorem roundtrip_counterexample :
    (['a', '|', 'b'] : List Char) ≠ [] ∧
    ((0 : ℚ) ≤ 50 ∧ (50 : ℚ) ≤ 100) ∧ ((0 : ℚ) ≤ 0 ∧ (0 : ℚ) ≤ 100) ∧
    parse_line_to_student (write_student_to_file
        (calculate_student ⟨1, ['a', '|', 'b'], 50, 0, 0, 0, 0, ""⟩)) ≠
      some (calculate_student ⟨1, ['a', '|', 'b'], 50, 0, 0, 0, 0, ""⟩) := by
  refine ⟨by decide, by norm_num, by norm_num, ?_⟩
  rw [write_calc_shape]
  unfold parse_line_to_student
  dsimp only
  rw [List.getLast?_concat, if_pos rfl, List.dropLast_concat]
  have hi : intRepr (1 : Int) = ['1'] := by decide
  rw [hi]
  have hre : ∀ Z : List Char,
      (['a', '|', 'b'] : List Char) ++ '|' :: Z =
        ['a'] ++ '|' :: (['b'] ++ '|' :: Z) := fun Z => rfl
  rw [hre]
  rw [show (50 : ℚ) = ((5000 : ℕ) : ℚ) / 100 from by norm_num]
  rw [show (0 : ℚ) = ((0 : ℕ) : ℚ) / 100 from by norm_num]
  rw [strtokAll_cons '|' ['1'] _ (by decide) (by decide)]
  rw [strtokAll_cons '|' ['a'] _ (by decide) (by decide)]
  rw [strtokAll_cons '|' ['b'] _ (by decide) (by decide)]
  rw [strtokAll_cons _ _ _ (fmt2_digits_shape 5000).2 (fmt2_digits_shape 5000).1]
  rw [strtokAll_cons _ _ _ (fmt2_digits_shape 0).2 (fmt2_digits_shape 0).1]
  rw [strtokAll_last _ _ (fmt2_digits_shape 0).2 (fmt2_digits_shape 0).1]
  dsimp only
  intro h
  have h3 := congrArg Student.name (Option.some.inj h)
  simp [calculate_student] at h3

/-- Witness for C2 (amended) at roll 12, name "Al", marks
(90, 85.5, 95). -/
theorem roundtrip_amended_witness :
    ((['A', 'l'] : List Char) ≠ []) ∧
    (['A', 'l'] : List Char).length ≤ 99 ∧
    (∀ c ∈ (['A', 'l'] : List Char), c ≠ '|') ∧
    (∃ k : ℕ, k ≤ 10000 ∧ (90 : ℚ) = (k : ℚ) / 100) ∧
    (∃ k : ℕ, k ≤ 10000 ∧ (85.5 : ℚ) = (k : ℚ) / 100) ∧
    (∃ k : ℕ, k ≤ 10000 ∧ (95 : ℚ) = (k : ℚ) / 100) ∧
    parse_line_to_student (write_student_to_file
        (calculate_student ⟨12, ['A', 'l'], 90, 85.5, 95, 0, 0, ""⟩)) =
      some (calculate_student ⟨12, ['A', 'l'], 90, 85.5, 95, 0, 0, ""⟩) :=
  ⟨by decide, by decide, by decide,
   ⟨9000, by norm_num⟩, ⟨8550, by norm_num⟩, ⟨9500, by norm_num⟩,
   roundtrip_amended ⟨12, ['A', 'l'], 90, 85.5, 95, 0, 0, ""⟩
     (by decide) (by decide) (by decide)
     ⟨9000, by norm_num⟩ ⟨8550, by norm_num⟩ ⟨9500, by norm_num⟩⟩

/-! ## Sorting comparator (srms.c:577-582, C6)

`feature_sorting` delegates the permutation to the C library `qsort`,
whose order among elements that compare equal is unspecified by the C
standard; only the comparator itself is repository code. -/

/-- `cmp_marks_desc` (srms.c:577-582): positive when `b.total > a.total`,
negative when smaller, and 0 on equal totals. -/
def cmp_marks_desc (a b : Student) : Int :=
  if b.total - a.total > 0 then 1
  else if b.total - a.total < 0 then -1
  else 0

lemma cmp_marks_desc_eq_zero (a b : Student) (h : a.total = b.total) :
    cmp_marks_desc a b = 0 := by
  unfold cmp_marks_desc
  rw [h]
  simp

end SRMS
